import Mathlib

/-!
Verification of the GR-Explorer differential-geometry backend.

The backend manipulates symbolic expressions through the SymPy library.
We shallowly embed the expression language: `Expr` models the SymPy
expression tree, the smart constructors `addE`, `subE`, `mulE`, `divE`,
`negE` model SymPy's automatic evaluation on the arithmetic operators
(constant folding, `0 + x = x`, `x - x = 0`, `x * 1 = x`, `0 / x = 0`, ...),
`diffE` models `sympy.diff`, `simplifyE` models `sympy.simplify`
(a sound structural normaliser: SymPy's simplifier is stronger, but both
are semantics-preserving and both decide zeroness only structurally on
the result), and `evalR` gives the real-valued semantics of an expression
under an assignment of the free symbols.
-/

inductive Expr where
  | const (q : ℤ)
  | var (s : String)
  | add (a b : Expr)
  | sub (a b : Expr)
  | mul (a b : Expr)
  | div (a b : Expr)
  | neg (a : Expr)
  | pow (a b : Expr)
  | sin (a : Expr)
  | cos (a : Expr)
  | sqrt (a : Expr)
  | log (a : Expr)
deriving DecidableEq, Repr

/-- The literal zero expression, modelling `sympy.S.Zero`. -/
def zeroE : Expr := Expr.const 0

/-- The literal one expression. -/
def oneE : Expr := Expr.const 1

/-- The SymPy number `Rational(1, 2)`, kept as an exact unevaluated
quotient of integers. -/
def ratHalf : Expr := Expr.div (Expr.const 1) (Expr.const 2)

/-- Addition with SymPy-style automatic evaluation. -/
def addE (a b : Expr) : Expr :=
  match a, b with
  | Expr.const p, Expr.const q => Expr.const (p + q)
  | _, _ => if a = zeroE then b else if b = zeroE then a else Expr.add a b

/-- Subtraction with SymPy-style automatic evaluation. -/
def subE (a b : Expr) : Expr :=
  match a, b with
  | Expr.const p, Expr.const q => Expr.const (p - q)
  | _, _ => if a = b then zeroE else if b = zeroE then a else Expr.sub a b

/-- Multiplication with SymPy-style automatic evaluation. -/
def mulE (a b : Expr) : Expr :=
  match a, b with
  | Expr.const p, Expr.const q => Expr.const (p * q)
  | _, _ =>
    if a = zeroE ∨ b = zeroE then zeroE
    else if a = oneE then b else if b = oneE then a else Expr.mul a b

/-- Division with SymPy-style automatic evaluation (exact integer
quotients are folded, other numeric quotients stay as exact rational
atoms; `0 / x = 0`; `x / 1 = x`). -/
def divE (a b : Expr) : Expr :=
  match a, b with
  | Expr.const p, Expr.const q =>
    if q ≠ 0 ∧ p % q = 0 then Expr.const (p / q)
    else if p = 0 then zeroE
    else Expr.div (Expr.const p) (Expr.const q)
  | _, _ => if a = zeroE then zeroE else if b = oneE then a else Expr.div a b

/-- Negation with SymPy-style automatic evaluation. -/
def negE (a : Expr) : Expr :=
  match a with
  | Expr.const p => Expr.const (-p)
  | _ => Expr.neg a

/-- Free-symbol test, modelling `x in expr.free_symbols`. -/
def occurs (x : String) : Expr → Bool
  | Expr.const _ => false
  | Expr.var s => s = x
  | Expr.add a b => occurs x a || occurs x b
  | Expr.sub a b => occurs x a || occurs x b
  | Expr.mul a b => occurs x a || occurs x b
  | Expr.div a b => occurs x a || occurs x b
  | Expr.neg a => occurs x a
  | Expr.pow a b => occurs x a || occurs x b
  | Expr.sin a => occurs x a
  | Expr.cos a => occurs x a
  | Expr.sqrt a => occurs x a
  | Expr.log a => occurs x a

/-- Symbolic differentiation with respect to the symbol `x`,
modelling `sympy.diff(e, Symbol(x))`. -/
def diffE (x : String) : Expr → Expr
  | Expr.const _ => zeroE
  | Expr.var s => if s = x then oneE else zeroE
  | Expr.add a b => addE (diffE x a) (diffE x b)
  | Expr.sub a b => subE (diffE x a) (diffE x b)
  | Expr.mul a b => addE (mulE (diffE x a) b) (mulE a (diffE x b))
  | Expr.div a b =>
    divE (subE (mulE (diffE x a) b) (mulE a (diffE x b))) (Expr.mul b b)
  | Expr.neg a => negE (diffE x a)
  | Expr.pow a b =>
    mulE (Expr.pow a b)
      (addE (mulE (diffE x b) (Expr.log a)) (divE (mulE b (diffE x a)) a))
  | Expr.sin a => mulE (Expr.cos a) (diffE x a)
  | Expr.cos a => mulE (negE (Expr.sin a)) (diffE x a)
  | Expr.sqrt a => divE (diffE x a) (mulE (Expr.const 2) (Expr.sqrt a))
  | Expr.log a => divE (diffE x a) a

/-- Structural normaliser modelling `sympy.simplify`: rebuilds the tree
bottom-up through the auto-evaluating constructors. -/
def simplifyE : Expr → Expr
  | Expr.add a b => addE (simplifyE a) (simplifyE b)
  | Expr.sub a b => subE (simplifyE a) (simplifyE b)
  | Expr.mul a b => mulE (simplifyE a) (simplifyE b)
  | Expr.div a b => divE (simplifyE a) (simplifyE b)
  | Expr.neg a => negE (simplifyE a)
  | Expr.pow a b => Expr.pow (simplifyE a) (simplifyE b)
  | Expr.sin a => Expr.sin (simplifyE a)
  | Expr.cos a => Expr.cos (simplifyE a)
  | Expr.sqrt a => Expr.sqrt (simplifyE a)
  | Expr.log a => Expr.log (simplifyE a)
  | e => e

/-- Real-valued semantics of an expression under an assignment of symbols.
Partial operations follow Lean's total conventions (`x / 0 = 0`). -/
noncomputable def evalR : Expr → (String → ℝ) → ℝ
  | Expr.const q, _ => (q : ℝ)
  | Expr.var s, env => env s
  | Expr.add a b, env => evalR a env + evalR b env
  | Expr.sub a b, env => evalR a env - evalR b env
  | Expr.mul a b, env => evalR a env * evalR b env
  | Expr.div a b, env => evalR a env / evalR b env
  | Expr.neg a, env => -(evalR a env)
  | Expr.pow a b, env => Real.rpow (evalR a env) (evalR b env)
  | Expr.sin a, env => Real.sin (evalR a env)
  | Expr.cos a, env => Real.cos (evalR a env)
  | Expr.sqrt a, env => Real.sqrt (evalR a env)
  | Expr.log a, env => Real.log (evalR a env)

theorem evalR_zeroE (env : String → ℝ) : evalR zeroE env = 0 := by
  simp [zeroE, evalR]

theorem evalR_oneE (env : String → ℝ) : evalR oneE env = 1 := by
  simp [oneE, evalR]

theorem evalR_addE (a b : Expr) (env : String → ℝ) :
    evalR (addE a b) env = evalR a env + evalR b env := by
  unfold addE
  split
  · simp [evalR]
  · split
    · rename_i h; subst h; simp [evalR, zeroE]
    · split
      · rename_i h; subst h; simp [evalR, zeroE]
      · simp [evalR]

theorem evalR_subE (a b : Expr) (env : String → ℝ) :
    evalR (subE a b) env = evalR a env - evalR b env := by
  unfold subE
  split
  · simp [evalR]
  · split
    · rename_i h; subst h; simp [evalR, zeroE]
    · split
      · rename_i h; subst h; simp [evalR, zeroE]
      · simp [evalR]

theorem evalR_mulE (a b : Expr) (env : String → ℝ) :
    evalR (mulE a b) env = evalR a env * evalR b env := by
  unfold mulE
  split
  · simp [evalR]
  · split
    · rename_i h
      rcases h with h | h <;> subst h <;> simp [evalR, zeroE]
    · split
      · rename_i h; subst h; simp [evalR, oneE]
      · split
        · rename_i h; subst h; simp [evalR, oneE]
        · simp [evalR]

theorem evalR_divE (a b : Expr) (env : String → ℝ) :
    evalR (divE a b) env = evalR a env / evalR b env := by
  unfold divE
  split
  · rename_i p q
    split
    · rename_i h
      obtain ⟨c, rfl⟩ : q ∣ p := Int.dvd_of_emod_eq_zero h.2
      have hq : (q : ℝ) ≠ 0 := Int.cast_ne_zero.mpr h.1
      rw [Int.mul_ediv_cancel_left _ h.1]
      simp [evalR]
      field_simp
    · split
      · rename_i h; subst h; simp [evalR, zeroE]
      · simp [evalR]
  · split
    · rename_i h; subst h; simp [evalR, zeroE]
    · split
      · rename_i h; subst h; simp [evalR, oneE]
      · simp [evalR]

theorem evalR_negE (a : Expr) (env : String → ℝ) :
    evalR (negE a) env = -(evalR a env) := by
  unfold negE
  split
  · simp [evalR]
  · simp [evalR]

theorem evalR_simplifyE (e : Expr) (env : String → ℝ) :
    evalR (simplifyE e) env = evalR e env := by
  induction e with
  | const q => simp [simplifyE]
  | var s => simp [simplifyE]
  | add a b iha ihb => simp [simplifyE, evalR_addE, evalR, iha, ihb]
  | sub a b iha ihb => simp [simplifyE, evalR_subE, evalR, iha, ihb]
  | mul a b iha ihb => simp [simplifyE, evalR_mulE, evalR, iha, ihb]
  | div a b iha ihb => simp [simplifyE, evalR_divE, evalR, iha, ihb]
  | neg a iha => simp [simplifyE, evalR_negE, evalR, iha]
  | pow a b iha ihb => simp [simplifyE, evalR, iha, ihb]
  | sin a iha => simp [simplifyE, evalR, iha]
  | cos a iha => simp [simplifyE, evalR, iha]
  | sqrt a iha => simp [simplifyE, evalR, iha]
  | log a iha => simp [simplifyE, evalR, iha]

/-- Soundness of the free-symbol pre-filter: the symbolic derivative of an
expression with no free occurrence of the symbol evaluates to zero. -/
theorem evalR_diffE_of_not_occurs (x : String) (e : Expr) (env : String → ℝ)
    (h : occurs x e = false) : evalR (diffE x e) env = 0 := by
  induction e with
  | const q => simp [diffE, evalR_zeroE]
  | var s =>
    simp [occurs] at h
    simp [diffE, h, evalR_zeroE]
  | add a b iha ihb =>
    simp [occurs] at h
    simp [diffE, evalR_addE, iha h.1, ihb h.2]
  | sub a b iha ihb =>
    simp [occurs] at h
    simp [diffE, evalR_subE, iha h.1, ihb h.2]
  | mul a b iha ihb =>
    simp [occurs] at h
    simp [diffE, evalR_addE, evalR_mulE, iha h.1, ihb h.2]
  | div a b iha ihb =>
    simp [occurs] at h
    simp [diffE, evalR_divE, evalR_subE, evalR_mulE, iha h.1, ihb h.2]
  | neg a iha =>
    simp [occurs] at h
    simp [diffE, evalR_negE, iha h]
  | pow a b iha ihb =>
    simp [occurs] at h
    simp [diffE, evalR_mulE, evalR_addE, evalR_divE, iha h.1, ihb h.2]
  | sin a iha =>
    simp [occurs] at h
    simp [diffE, evalR_mulE, iha h]
  | cos a iha =>
    simp [occurs] at h
    simp [diffE, evalR_mulE, iha h]
  | sqrt a iha =>
    simp [occurs] at h
    simp [diffE, evalR_divE, iha h]
  | log a iha =>
    simp [occurs] at h
    simp [diffE, evalR_divE, iha h]

/-- Computable exact evaluator on the transcendental-free fragment of
`Expr`, returning an unnormalised integer fraction (numerator,
denominator); used to separate concrete expressions semantically. -/
def evalQZ (env : String → ℤ) : Expr → Option (ℤ × ℤ)
  | Expr.const n => some (n, 1)
  | Expr.var s => some (env s, 1)
  | Expr.add a b => (evalQZ env a).bind (fun x => (evalQZ env b).map
      (fun y => (x.1 * y.2 + y.1 * x.2, x.2 * y.2)))
  | Expr.sub a b => (evalQZ env a).bind (fun x => (evalQZ env b).map
      (fun y => (x.1 * y.2 - y.1 * x.2, x.2 * y.2)))
  | Expr.mul a b => (evalQZ env a).bind (fun x => (evalQZ env b).map
      (fun y => (x.1 * y.1, x.2 * y.2)))
  | Expr.div a b => (evalQZ env a).bind (fun x => (evalQZ env b).bind
      (fun y => if y.1 = 0 then none else some (x.1 * y.2, x.2 * y.1)))
  | Expr.neg a => (evalQZ env a).map (fun x => (-x.1, x.2))
  | _ => none

/-- Agreement of the exact evaluator with the real semantics: whenever
`evalQZ` is defined it returns a fraction with non-zero denominator whose
value is `evalR` under the cast assignment. -/
theorem evalR_of_evalQZ (env : String → ℤ) :
    ∀ (e : Expr) (n d : ℤ), evalQZ env e = some (n, d) →
      d ≠ 0 ∧ evalR e (fun s => ((env s : ℤ) : ℝ)) = (n : ℝ) / (d : ℝ) := by
  intro e
  induction e with
  | const c =>
    intro n d h
    simp [evalQZ] at h
    rw [← h.1, ← h.2]
    simp [evalR]
  | var s =>
    intro n d h
    simp [evalQZ] at h
    rw [← h.1, ← h.2]
    simp [evalR]
  | add a b iha ihb =>
    intro n d h
    cases ha : evalQZ env a with
    | none => simp [evalQZ, ha] at h
    | some x =>
      cases hb : evalQZ env b with
      | none => simp [evalQZ, ha, hb] at h
      | some y =>
        simp [evalQZ, ha, hb] at h
        obtain ⟨h1, e1⟩ := iha x.1 x.2 (by rw [ha])
        obtain ⟨h2, e2⟩ := ihb y.1 y.2 (by rw [hb])
        have hd1 : (x.2 : ℝ) ≠ 0 := Int.cast_ne_zero.mpr h1
        have hd2 : (y.2 : ℝ) ≠ 0 := Int.cast_ne_zero.mpr h2
        refine ⟨by rw [← h.2]; exact mul_ne_zero h1 h2, ?_⟩
        rw [evalR, e1, e2, ← h.1, ← h.2]
        push_cast
        field_simp
  | sub a b iha ihb =>
    intro n d h
    cases ha : evalQZ env a with
    | none => simp [evalQZ, ha] at h
    | some x =>
      cases hb : evalQZ env b with
      | none => simp [evalQZ, ha, hb] at h
      | some y =>
        simp [evalQZ, ha, hb] at h
        obtain ⟨h1, e1⟩ := iha x.1 x.2 (by rw [ha])
        obtain ⟨h2, e2⟩ := ihb y.1 y.2 (by rw [hb])
        have hd1 : (x.2 : ℝ) ≠ 0 := Int.cast_ne_zero.mpr h1
        have hd2 : (y.2 : ℝ) ≠ 0 := Int.cast_ne_zero.mpr h2
        refine ⟨by rw [← h.2]; exact mul_ne_zero h1 h2, ?_⟩
        rw [evalR, e1, e2, ← h.1, ← h.2]
        push_cast
        field_simp
        ring
  | mul a b iha ihb =>
    intro n d h
    cases ha : evalQZ env a with
    | none => simp [evalQZ, ha] at h
    | some x =>
      cases hb : evalQZ env b with
      | none => simp [evalQZ, ha, hb] at h
      | some y =>
        simp [evalQZ, ha, hb] at h
        obtain ⟨h1, e1⟩ := iha x.1 x.2 (by rw [ha])
        obtain ⟨h2, e2⟩ := ihb y.1 y.2 (by rw [hb])
        have hd1 : (x.2 : ℝ) ≠ 0 := Int.cast_ne_zero.mpr h1
        have hd2 : (y.2 : ℝ) ≠ 0 := Int.cast_ne_zero.mpr h2
        refine ⟨by rw [← h.2]; exact mul_ne_zero h1 h2, ?_⟩
        rw [evalR, e1, e2, ← h.1, ← h.2]
        push_cast
        field_simp
  | div a b iha ihb =>
    intro n d h
    cases ha : evalQZ env a with
    | none => simp [evalQZ, ha] at h
    | some x =>
      cases hb : evalQZ env b with
      | none => simp [evalQZ, ha, hb] at h
      | some y =>
        by_cases hy : y.1 = 0
        · simp [evalQZ, ha, hb, hy] at h
        · simp [evalQZ, ha, hb, hy] at h
          obtain ⟨h1, e1⟩ := iha x.1 x.2 (by rw [ha])
          obtain ⟨h2, e2⟩ := ihb y.1 y.2 (by rw [hb])
          have hd1 : (x.2 : ℝ) ≠ 0 := Int.cast_ne_zero.mpr h1
          have hd2 : (y.2 : ℝ) ≠ 0 := Int.cast_ne_zero.mpr h2
          have hy' : (y.1 : ℝ) ≠ 0 := Int.cast_ne_zero.mpr hy
          refine ⟨by rw [← h.2]; exact mul_ne_zero h1 hy, ?_⟩
          rw [evalR, e1, e2, ← h.1, ← h.2]
          push_cast
          field_simp
  | neg a iha =>
    intro n d h
    cases ha : evalQZ env a with
    | none => simp [evalQZ, ha] at h
    | some x =>
      simp [evalQZ, ha] at h
      obtain ⟨h1, e1⟩ := iha x.1 x.2 (by rw [ha])
      refine ⟨by rw [← h.2]; exact h1, ?_⟩
      rw [evalR, e1, ← h.1, ← h.2]
      push_cast
      ring
  | pow a b iha ihb => intro n d h; simp [evalQZ] at h
  | sin a iha => intro n d h; simp [evalQZ] at h
  | cos a iha => intro n d h; simp [evalQZ] at h
  | sqrt a iha => intro n d h; simp [evalQZ] at h
  | log a iha => intro n d h; simp [evalQZ] at h

/-- Rendering of an expression to text, modelling the `str`/`latex`
printers of the algebra system (the program only embeds the rendered text
in messages; no claim constrains its exact shape). -/
def exprStr : Expr → String
  | Expr.const q => toString q
  | Expr.var s => s
  | Expr.add a b => "(" ++ exprStr a ++ " + " ++ exprStr b ++ ")"
  | Expr.sub a b => "(" ++ exprStr a ++ " - " ++ exprStr b ++ ")"
  | Expr.mul a b => "(" ++ exprStr a ++ "*" ++ exprStr b ++ ")"
  | Expr.div a b => "(" ++ exprStr a ++ "/" ++ exprStr b ++ ")"
  | Expr.neg a => "(-" ++ exprStr a ++ ")"
  | Expr.pow a b => "(" ++ exprStr a ++ "**" ++ exprStr b ++ ")"
  | Expr.sin a => "sin(" ++ exprStr a ++ ")"
  | Expr.cos a => "cos(" ++ exprStr a ++ ")"
  | Expr.sqrt a => "sqrt(" ++ exprStr a ++ ")"
  | Expr.log a => "log(" ++ exprStr a ++ ")"

/-- LaTeX rendering of an expression, modelling `sympy.latex`. -/
def latexE (e : Expr) : String := exprStr e

/-!
Matrices and index ranges. A SymPy 4x4 `Matrix` is embedded as a function
`Fin 4 → Fin 4 → Expr`; the shape checks of the Python code
(`metric.shape != (4, 4)` and friends) hold by construction.
-/

/-- A 4x4 symbolic matrix (SymPy `Matrix`). -/
def Mat4 : Type := Fin 4 → Fin 4 → Expr

/-- A rank-3 (4,4,4) symbolic array (Christoffel symbols). -/
def Arr3 : Type := Fin 4 → Fin 4 → Fin 4 → Expr

/-- A rank-4 (4,4,4,4) symbolic array (Riemann tensor). -/
def Arr4 : Type := Fin 4 → Fin 4 → Fin 4 → Fin 4 → Expr

/-- The index range of the Python loops `for i in range(4)`. -/
def finRange4 : List (Fin 4) := [0, 1, 2, 3]

/-- Determinant of a symbolic 2x2 block. -/
def det2E (a b c d : Expr) : Expr := subE (mulE a d) (mulE b c)

/-- Determinant of a symbolic 3x3 block by cofactor expansion. -/
def det3E (a b c d e f g h i : Expr) : Expr :=
  addE (subE (mulE a (det2E e f h i)) (mulE b (det2E d f g i)))
    (mulE c (det2E d e g h))

/-- Minor of a 4x4 matrix: determinant after deleting row `i`, column `j`. -/
def minorE (m : Mat4) (i j : Fin 4) : Expr :=
  match (finRange4.filter (fun r => r ≠ i)), (finRange4.filter (fun c => c ≠ j)) with
  | [r0, r1, r2], [c0, c1, c2] =>
    det3E (m r0 c0) (m r0 c1) (m r0 c2) (m r1 c0) (m r1 c1) (m r1 c2)
      (m r2 c0) (m r2 c1) (m r2 c2)
  | _, _ => zeroE

/-- Signed cofactor of a 4x4 matrix. -/
def cofactorE (m : Mat4) (i j : Fin 4) : Expr :=
  if (i.val + j.val) % 2 = 0 then minorE m i j else negE (minorE m i j)

/-- Determinant of a symbolic 4x4 matrix (cofactor expansion along the
first row), modelling `Matrix.det()` of the algebra system. -/
def det4E (m : Mat4) : Expr :=
  addE (addE (addE (mulE (m 0 0) (cofactorE m 0 0)) (mulE (m 0 1) (cofactorE m 0 1)))
      (mulE (m 0 2) (cofactorE m 0 2)))
    (mulE (m 0 3) (cofactorE m 0 3))

/-- Symbolic inverse of a 4x4 matrix (adjugate over determinant),
modelling `Matrix.inv()` of the algebra system. -/
def inv4E (m : Mat4) : Mat4 :=
  fun i j => divE (cofactorE m j i) (det4E m)

/-- Python-style error values raised/returned by the backend. -/
inductive PyErr where
  | valueError (msg : String)
deriving DecidableEq, Repr

/-- Embedding of `metric.calculate_inverse_metric`: computes the
determinant, raises `ValueError("Metric is singular ...")` when its
simplified form is the literal zero, and otherwise inverts the matrix.
The `isinstance`/shape guard holds by the type `Mat4`. -/
def calculate_inverse_metric (metric : Mat4) : Except PyErr Mat4 :=
  if simplifyE (det4E metric) = zeroE then
    Except.error (PyErr.valueError
      "Metric is singular (determinant is zero), cannot compute inverse.")
  else
    Except.ok (inv4E metric)

/-!
Christoffel calculator (`christoffel.calculate_christoffel_symbols`).
Step 1 precomputes the metric derivatives `dg[rho, mu, nu]` with two
pre-filters (skip literal-zero components, skip components without a free
occurrence of the coordinate); step 2 assembles each symbol, skipping
summands whose factors are literally zero, and simplifies once at the end.
-/

/-- Step 1 of the Christoffel calculator: the precomputed derivative
`dg[rho, mu, nu] = d(g[mu, nu]) / d(coords[rho])` with the two pre-filters
of the source. -/
def dgE (metric : Mat4) (coords : Fin 4 → String) (rho mu nu : Fin 4) : Expr :=
  if metric mu nu = zeroE then zeroE
  else if occurs (coords rho) (metric mu nu) then
    (if diffE (coords rho) (metric mu nu) ≠ zeroE then
      simplifyE (diffE (coords rho) (metric mu nu))
    else zeroE)
  else zeroE

/-- The summand `dg[mu, rho, nu] + dg[nu, rho, mu] - dg[rho, mu, nu]` of
step 2 of the Christoffel calculator. -/
def christoffelTerm (metric : Mat4) (coords : Fin 4 → String) (rho mu nu : Fin 4) : Expr :=
  subE (addE (dgE metric coords mu rho nu) (dgE metric coords nu rho mu))
    (dgE metric coords rho mu nu)

/-- The accumulated `sum_val` of step 2 of the Christoffel calculator,
with the literal-zero guards of the source on both factors. -/
def christoffelSum (metric inverse_metric : Mat4) (coords : Fin 4 → String)
    (lam mu nu : Fin 4) : Expr :=
  finRange4.foldl (fun acc rho =>
    if christoffelTerm metric coords rho mu nu ≠ zeroE ∧ inverse_metric lam rho ≠ zeroE then
      addE acc (mulE (inverse_metric lam rho) (christoffelTerm metric coords rho mu nu))
    else acc) zeroE

/-- One component `Gamma^lam_{mu nu}` of the Christoffel calculator's
output array. -/
def christoffelComp (metric inverse_metric : Mat4) (coords : Fin 4 → String)
    (lam mu nu : Fin 4) : Expr :=
  if christoffelSum metric inverse_metric coords lam mu nu ≠ zeroE then
    simplifyE (mulE (ratHalf) (christoffelSum metric inverse_metric coords lam mu nu))
  else zeroE

/-- Dynamically-typed Python values flowing between the calculators: the
Christoffel routine returns a `(nested-list, error)` tuple, while the
Riemann routine expects a SymPy rank-3 `Array`. -/
inductive PyVal where
  | arr3 (f : Arr3)
  | list3 (f : Arr3)
  | tuple2 (a b : PyVal)
  | pynone
  | str (s : String)

/-- Embedding of `calculate_christoffel_symbols`: the pure computation
cannot raise, so the source returns the pair `(christoffel.tolist(), None)`
-- a Python tuple whose first entry is a nested list. -/
def calculate_christoffel_symbols (metric inverse_metric : Mat4)
    (coords : Fin 4 → String) : PyVal :=
  PyVal.tuple2
    (PyVal.list3 (fun lam mu nu => christoffelComp metric inverse_metric coords lam mu nu))
    PyVal.pynone

theorem evalR_dgE (metric : Mat4) (coords : Fin 4 → String) (rho mu nu : Fin 4)
    (env : String → ℝ) :
    evalR (dgE metric coords rho mu nu) env
      = evalR (diffE (coords rho) (metric mu nu)) env := by
  unfold dgE
  split
  · rename_i h
    rw [h]
    simp [diffE, evalR_zeroE]
  · split
    · split
      · rw [evalR_simplifyE]
      · rename_i h
        rw [not_not.mp h]
    · rename_i h
      rw [evalR_zeroE, evalR_diffE_of_not_occurs _ _ _ (by simpa using h)]

theorem evalR_christoffelTerm (metric : Mat4) (coords : Fin 4 → String)
    (rho mu nu : Fin 4) (env : String → ℝ) :
    evalR (christoffelTerm metric coords rho mu nu) env
      = evalR (diffE (coords mu) (metric rho nu)) env
        + evalR (diffE (coords nu) (metric rho mu)) env
        - evalR (diffE (coords rho) (metric mu nu)) env := by
  unfold christoffelTerm
  rw [evalR_subE, evalR_addE, evalR_dgE, evalR_dgE, evalR_dgE]

theorem evalR_guardAdd (acc g t : Expr) (env : String → ℝ) :
    evalR (if t ≠ zeroE ∧ g ≠ zeroE then addE acc (mulE g t) else acc) env
      = evalR acc env + evalR g env * evalR t env := by
  split
  · rw [evalR_addE, evalR_mulE]
  · rename_i h
    rcases not_and_or.mp h with h | h
    · rw [not_not.mp h, evalR_zeroE]
      ring
    · rw [not_not.mp h, evalR_zeroE]
      ring

theorem evalR_christoffelSum (metric inverse_metric : Mat4)
    (coords : Fin 4 → String) (lam mu nu : Fin 4) (env : String → ℝ) :
    evalR (christoffelSum metric inverse_metric coords lam mu nu) env
      = ∑ rho : Fin 4, evalR (inverse_metric lam rho) env
          * evalR (christoffelTerm metric coords rho mu nu) env := by
  simp only [christoffelSum, finRange4, List.foldl_cons, List.foldl_nil]
  rw [evalR_guardAdd, evalR_guardAdd, evalR_guardAdd, evalR_guardAdd, evalR_zeroE,
    Fin.sum_univ_four]
  ring

/-- Semantics of one Christoffel component: the pre-filters are sound and
the output is exactly the textbook formula. -/
theorem evalR_christoffelComp (metric inverse_metric : Mat4)
    (coords : Fin 4 → String) (lam mu nu : Fin 4) (env : String → ℝ) :
    evalR (christoffelComp metric inverse_metric coords lam mu nu) env
      = (1 / 2) * ∑ rho : Fin 4, evalR (inverse_metric lam rho) env
          * (evalR (diffE (coords mu) (metric rho nu)) env
            + evalR (diffE (coords nu) (metric rho mu)) env
            - evalR (diffE (coords rho) (metric mu nu)) env) := by
  have hsum : evalR (christoffelSum metric inverse_metric coords lam mu nu) env
      = ∑ rho : Fin 4, evalR (inverse_metric lam rho) env
          * (evalR (diffE (coords mu) (metric rho nu)) env
            + evalR (diffE (coords nu) (metric rho mu)) env
            - evalR (diffE (coords rho) (metric mu nu)) env) := by
    rw [evalR_christoffelSum]
    refine Finset.sum_congr rfl (fun rho _ => ?_)
    rw [evalR_christoffelTerm]
  unfold christoffelComp
  split
  · rw [evalR_simplifyE, evalR_mulE, ← hsum]
    simp [evalR]
  · rename_i h
    rw [evalR_zeroE, ← hsum, not_not.mp h, evalR_zeroE]
    ring

/-!
Riemann calculator (`riemann.calculate_riemann_tensor`). The routine first
type-checks its `christoffel` argument against the SymPy `Array` class,
then precomputes the derivative array `dGamma` and assembles
`R^rho_{sigma mu nu} = term1 - term2 + term3 - term4`.
-/

/-- The precomputed derivative `dGamma[mu, rho, nu, sigma]
= d(Gamma^rho_{nu sigma}) / d(coords[mu])` with the literal-zero
pre-filter of the source. -/
def dGammaE (ch : Arr3) (coords : Fin 4 → String) (mu rho nu sigma : Fin 4) : Expr :=
  if ch rho nu sigma ≠ zeroE then simplifyE (diffE (coords mu) (ch rho nu sigma))
  else zeroE

/-- The accumulated product term `sum_lam ch[rho, a, lam] * ch[lam, b, sigma]`
(`term3`/`term4` of the source, accumulated from the Python integer 0). -/
def riemannProd (ch : Arr3) (rho a b sigma : Fin 4) : Expr :=
  finRange4.foldl (fun acc lam => addE acc (mulE (ch rho a lam) (ch lam b sigma))) zeroE

/-- One component of the Riemann tensor:
`term1 - term2 + term3 - term4`. -/
def riemannComp (ch : Arr3) (coords : Fin 4 → String) (rho sigma mu nu : Fin 4) : Expr :=
  subE
    (addE
      (subE (dGammaE ch coords mu rho nu sigma) (dGammaE ch coords nu rho mu sigma))
      (riemannProd ch rho mu nu sigma))
    (riemannProd ch rho nu mu sigma)

/-- Embedding of `calculate_riemann_tensor`: the `isinstance` guard of the
source accepts only a SymPy rank-3 `Array` and raises
`ValueError` on any other value (in particular on the tuple returned by
`calculate_christoffel_symbols` and on a plain nested list). -/
def calculate_riemann_tensor (christoffel : PyVal) (coords : Fin 4 → String) :
    Except PyErr Arr4 :=
  match christoffel with
  | PyVal.arr3 f => Except.ok (fun rho sigma mu nu => riemannComp f coords rho sigma mu nu)
  | _ => Except.error (PyErr.valueError
      "Christoffel symbols must be a 3-rank SymPy Array with shape (4, 4, 4).")

theorem addE_zero_left (b : Expr) : addE zeroE b = b := by
  unfold addE
  cases b <;> simp [zeroE]

theorem subE_self (a : Expr) : subE a a = zeroE := by
  unfold subE
  cases a <;> simp [zeroE]

/-- Pointwise semantic antisymmetry of the assembled Riemann component in
its last two indices, for an arbitrary rank-3 input array. -/
theorem evalR_riemannComp_antisymm (ch : Arr3) (coords : Fin 4 → String)
    (rho sigma mu nu : Fin 4) (env : String → ℝ) :
    evalR (riemannComp ch coords rho sigma mu nu) env
      = -(evalR (riemannComp ch coords rho sigma nu mu) env) := by
  unfold riemannComp
  rw [evalR_subE, evalR_subE, evalR_addE, evalR_addE, evalR_subE, evalR_subE]
  ring

/-- With equal last indices the assembled Riemann component is the literal
zero expression, by SymPy's automatic cancellation of syntactically equal
terms. -/
theorem riemannComp_diag (ch : Arr3) (coords : Fin 4 → String)
    (rho sigma mu : Fin 4) :
    riemannComp ch coords rho sigma mu mu = zeroE := by
  unfold riemannComp
  rw [subE_self, addE_zero_left, subE_self]

/-!
Ricci reducer, Einstein tensor builder and stress-energy builder,
embedded from `ricci.py`, `einstein_tensor.py` and `stress_energy.py`.
-/

/-- Embedding of `calculate_ricci_tensor`: contraction of the first and
third indices, accumulated from the Python integer 0. -/
def calculate_ricci_tensor (riemann : Arr4) : Mat4 :=
  fun mu nu => finRange4.foldl (fun acc rho => addE acc (riemann rho mu rho nu)) zeroE

/-- Row-major list of all rank-2 index pairs, the iteration order of the
nested `for mu in range(4): for nu in range(4)` loops. -/
def pairs16 : List (Fin 4 × Fin 4) :=
  [(0, 0), (0, 1), (0, 2), (0, 3),
   (1, 0), (1, 1), (1, 2), (1, 3),
   (2, 0), (2, 1), (2, 2), (2, 3),
   (3, 0), (3, 1), (3, 2), (3, 3)]

/-- Embedding of `calculate_ricci_scalar`: full contraction against the
inverse metric, accumulated from the Python integer 0. -/
def calculate_ricci_scalar (ricci : Mat4) (inverse_metric : Mat4) : Expr :=
  pairs16.foldl (fun acc p => addE acc (mulE (inverse_metric p.1 p.2) (ricci p.1 p.2))) zeroE

/-- Embedding of `calculate_einstein_tensor`:
`G = Ricci - (1/2 * metric * ricci_scalar)` with each component
simplified. -/
def calculate_einstein_tensor (ricci : Mat4) (ricci_scalar : Expr) (metric : Mat4) : Mat4 :=
  fun i j =>
    simplifyE (subE (ricci i j) (mulE (mulE (ratHalf) (metric i j)) ricci_scalar))

/-- The default four-velocity `[-1, 0, 0, 0]` of the stress-energy builder. -/
def defaultFourVelocity : Fin 4 → Expr :=
  fun i => if i = 0 then Expr.const (-1) else zeroE

/-- Embedding of `create_vacuum_tensor`: the 4x4 zero matrix. -/
def create_vacuum_tensor : Mat4 := fun _ _ => zeroE

/-- Embedding of `create_dust_tensor` with the default four-velocity. -/
def create_dust_tensor (density : Expr) : Mat4 :=
  fun mu nu => mulE (mulE density (defaultFourVelocity mu)) (defaultFourVelocity nu)

/-- Embedding of `create_perfect_fluid_tensor` with the default
four-velocity. -/
def create_perfect_fluid_tensor (metric : Mat4) (density pressure : Expr) : Mat4 :=
  fun mu nu =>
    addE (mulE (mulE (addE density pressure) (defaultFourVelocity mu)) (defaultFourVelocity nu))
      (mulE pressure (metric mu nu))

/-!
EFE verifier (`endpoints.verify_efe`). Steps 4-5 of the endpoint compare
`G` against `kappa * T` componentwise after simplification; on failure the
message reports the first mismatching component found by the row-major
double loop with `break` statements.
-/

/-- The simplified difference tensor `D = simplify(G - kappa * T)`. -/
def efeDiff (G T : Mat4) (kappa : Expr) : Mat4 :=
  fun i j => simplifyE (subE (G i j) (mulE kappa (T i j)))

/-- The comparison `diff_tensor_simplified == Matrix.zeros(4, 4)`:
structural equality of every entry with the literal zero. -/
def efeVerified (D : Mat4) : Bool :=
  pairs16.all (fun p => D p.1 p.2 = zeroE)

/-- The message set before the scan loop runs. -/
def efeBase : String := "EFEs NOT satisfied."

/-- The message produced for a mismatching component, modelling the
f-string of the source. -/
def efeRender (i j : Fin 4) (e : Expr) : String :=
  "EFEs NOT satisfied. Mismatch found in component (" ++ toString i.val ++ ","
    ++ toString j.val ++ "): " ++ exprStr e

/-- One step of the scan: the first guard models the `break` statements
(once the message changed, later iterations leave it unchanged). -/
def efeScanStep (D : Mat4) (msg : String) (p : Fin 4 × Fin 4) : String :=
  if msg ≠ efeBase then msg
  else if D p.1 p.2 ≠ zeroE then efeRender p.1 p.2 (D p.1 p.2) else msg

/-- The inner `for j in range(4)` loop of the scan. -/
def efeRowScan (D : Mat4) (i : Fin 4) (msg : String) : String :=
  finRange4.foldl (fun m j => efeScanStep D m (i, j)) msg

/-- The outer `for i in range(4)` loop of the scan, with the
`if message != "EFEs NOT satisfied.": break` early exit. -/
def efeScan (D : Mat4) : String :=
  finRange4.foldl (fun m i => if m ≠ efeBase then m else efeRowScan D i m) efeBase

/-- Steps 4-5 of `verify_efe` (the comparison stage): the verified flag
and the diagnostic message. -/
def verify_efe_compare (G T : Mat4) (kappa : Expr) : Bool × String :=
  let D := efeDiff G T kappa
  if efeVerified D then (true, "EFEs satisfied.") else (false, efeScan D)

/-- An HTTP error raised by the endpoint layer. -/
structure HTTPException where
  status : Nat
  detail : String
deriving DecidableEq, Repr

/-- The response model of the EFE verification endpoint. -/
structure EFEVerificationResponse where
  verified : Bool
  message : String
deriving DecidableEq, Repr

/-- The stress-energy request variants of the endpoint (explicit
components, or one of the presets). -/
inductive StressInput where
  | components (T : Mat4)
  | vacuum
  | dust (density : Expr)
  | perfectFluid (density pressure : Expr)

/-- Stress-energy tensor selected by the `verify_efe` dispatch on the
request's definition method and preset name. -/
def stressTensorFor (metric : Mat4) : StressInput → Mat4
  | StressInput.components T => T
  | StressInput.vacuum => create_vacuum_tensor
  | StressInput.dust d => create_dust_tensor d
  | StressInput.perfectFluid d p => create_perfect_fluid_tensor metric d p

/-- The body of the `verify_efe` endpoint (the `try` block): the
metric/stress inputs are taken already parsed, with both inputs using the
same coordinate list so that the coordinate-equality validation passes. -/
def verify_efe_body (metric : Mat4) (coords : Fin 4 → String)
    (stress : StressInput) (kappa : Expr) : Except PyErr EFEVerificationResponse := do
  let g_inv ← calculate_inverse_metric metric
  let gamma := calculate_christoffel_symbols metric g_inv coords
  let riemann ← calculate_riemann_tensor gamma coords
  let ricci := calculate_ricci_tensor riemann
  let ricci_s := calculate_ricci_scalar ricci g_inv
  let G := calculate_einstein_tensor ricci ricci_s metric
  let T := stressTensorFor metric stress
  let r := verify_efe_compare G T kappa
  pure { verified := r.1, message := r.2 }

/-- Embedding of the `verify_efe` endpoint: the `except ValueError` handler
re-raises every `ValueError` from the body as an HTTP 400 response. -/
def verify_efe (metric : Mat4) (coords : Fin 4 → String)
    (stress : StressInput) (kappa : Expr) : Except HTTPException EFEVerificationResponse :=
  match verify_efe_body metric coords stress kappa with
  | Except.ok r => Except.ok r
  | Except.error (PyErr.valueError m) => Except.error { status := 400, detail := m }

/-!
Tensor result formatting (`endpoints.format_tensor_output`). Rank-2
tensors emit all 16 keys; rank-3 and rank-4 tensors omit entries whose
simplified value is the literal zero. The Python dict (insertion-ordered,
distinct keys) is embedded as an association list in loop order.
-/

/-- The rank-2 index key `f"{i}{j}"`. -/
def key2 (i j : Fin 4) : String := toString i.val ++ toString j.val

/-- The rank-3 index key `f"{i}_{j}{k}"`. -/
def key3 (i j k : Fin 4) : String :=
  toString i.val ++ "_" ++ toString j.val ++ toString k.val

/-- The rank-4 index key `f"{i}_{j}{k}{l}"`. -/
def key4 (i j k l : Fin 4) : String :=
  toString i.val ++ "_" ++ toString j.val ++ toString k.val ++ toString l.val

/-- Row-major list of all rank-3 index triples, the iteration order of the
three nested loops. -/
def triples64 : List (Fin 4 × Fin 4 × Fin 4) :=
  finRange4.flatMap (fun i => pairs16.map (fun p => (i, p.1, p.2)))

/-- Row-major list of all rank-4 index quadruples. -/
def quads256 : List (Fin 4 × Fin 4 × Fin 4 × Fin 4) :=
  pairs16.flatMap (fun p => pairs16.map (fun q => (p.1, p.2, q.1, q.2)))

/-- The rank-2 branch of `format_tensor_output`: every entry is emitted. -/
def format_rank2 (t : Mat4) : List (String × String) :=
  pairs16.map (fun p => (key2 p.1 p.2, latexE (simplifyE (t p.1 p.2))))

/-- The rank-3 branch of `format_tensor_output`: an entry is emitted only
when its simplified value is not the literal zero. -/
def format_rank3 (t : Arr3) : List (String × String) :=
  triples64.filterMap (fun x =>
    if simplifyE (t x.1 x.2.1 x.2.2) ≠ zeroE then
      some (key3 x.1 x.2.1 x.2.2, latexE (simplifyE (t x.1 x.2.1 x.2.2)))
    else none)

/-- The rank-4 branch of `format_tensor_output`, with the same
zero-omission rule as rank 3. -/
def format_rank4 (t : Arr4) : List (String × String) :=
  quads256.filterMap (fun x =>
    if simplifyE (t x.1 x.2.1 x.2.2.1 x.2.2.2) ≠ zeroE then
      some (key4 x.1 x.2.1 x.2.2.1 x.2.2.2, latexE (simplifyE (t x.1 x.2.1 x.2.2.1 x.2.2.2)))
    else none)

/-!
Embedding solver (`embedding.calculate_flamms_paraboloid`). Symbolic
indefinite integration and the limit at infinity are operations of the
external algebra system; they are passed in as oracles: `integ` returns
`none` when SymPy returns an unevaluated `Integral` sentinel, and
`LimitOut` records the three outcomes of the limit computation
(`is_finite` truthy, `is_finite` falsy, or an exception raised).
-/

/-- Outcome of `sympy.limit(z, r, oo)` as observed by the source. -/
inductive LimitOut where
  | finiteVal (l : Expr)
  | notFinite (l : Expr)
  | raised (msg : String)

/-- All free symbols of an expression, modelling `expr.free_symbols`
(a list whose membership is what matters). -/
def exprVars : Expr → List String
  | Expr.const _ => []
  | Expr.var s => [s]
  | Expr.add a b => exprVars a ++ exprVars b
  | Expr.sub a b => exprVars a ++ exprVars b
  | Expr.mul a b => exprVars a ++ exprVars b
  | Expr.div a b => exprVars a ++ exprVars b
  | Expr.neg a => exprVars a
  | Expr.pow a b => exprVars a ++ exprVars b
  | Expr.sin a => exprVars a
  | Expr.cos a => exprVars a
  | Expr.sqrt a => exprVars a
  | Expr.log a => exprVars a

/-- Membership of a symbol in `metric.free_symbols`. -/
def metricHasSym (m : Mat4) (s : String) : Bool :=
  pairs16.any (fun p => occurs s (m p.1 p.2))

/-- The index of the coordinate literally named `r`, modelling
`coords.index(symbols('r'))`. The reduction modulo 4 is the identity in
every reachable use: the index is consulted only after the checks
`len(coords) == 4` and `'r' in coords` have passed. -/
def flammRIdx (coords : List String) : Fin 4 :=
  ⟨(coords.findIdx (fun s => s = "r")) % 4, Nat.mod_lt _ (by norm_num)⟩

/-- The component `g_rr` extracted by the embedding solver. -/
def flammGrr (metric : Mat4) (coords : List String) : Expr :=
  metric (flammRIdx coords) (flammRIdx coords)

/-- The coordinates other than `r` on which `g_rr` depends:
`variables_in_grr.intersection(set(coords)) - {r_symbol}`. -/
def flammDeps (metric : Mat4) (coords : List String) : List String :=
  (exprVars (flammGrr metric coords)).filter
    (fun s => decide (s ∈ coords) && decide (s ≠ "r"))

/-- The unsuitability test of the source: the subset check against
`({r} ∪ metric.free_symbols) - set(coords)` fails and the remaining
coordinate dependencies are non-empty. -/
def flammDepsErr (metric : Mat4) (coords : List String) : Bool :=
  (!(exprVars (flammGrr metric coords)).all
      (fun s => (decide (s = "r") || metricHasSym metric s) && decide (s ∉ coords)))
    && (!(flammDeps metric coords).isEmpty)

/-- Embedding of `calculate_flamms_paraboloid`. The 4x4 shape check holds
by the type `Mat4`; the remaining validations, the suitability check, the
integrand construction and the integration-constant fallback follow the
source. Exceptions inside `sympy.limit` are the `LimitOut.raised` case;
the two degraded branches both set the constant to the Python integer 0
and only print a warning. -/
def calculate_flamms_paraboloid (metric : Mat4) (coords : List String)
    (integ : Expr → Option Expr) (limitO : Expr → LimitOut) :
    Option Expr × Option String :=
  if coords.length ≠ 4 then (none, some "Must provide 4 coordinate symbols.")
  else if ¬("r" ∈ coords ∧ "theta" ∈ coords) then
    (none, some "Coordinates must include 'r' and 'theta'.")
  else if flammDepsErr metric coords then
    (none, some ("Metric component g_rr depends on coordinates other than r: "
      ++ toString (flammDeps metric coords)
      ++ ". Cannot compute Flamm's paraboloid simply."))
  else
    match integ (simplifyE (Expr.sqrt (subE (flammGrr metric coords) oneE))) with
    | none =>
      (none, some ("Symbolic integration failed for sqrt(g_rr - 1) = "
        ++ exprStr (simplifyE (Expr.sqrt (subE (flammGrr metric coords) oneE)))
        ++ ". Cannot determine z(r)."))
    | some z_integrated =>
      (some (simplifyE (addE z_integrated
        (match limitO z_integrated with
          | LimitOut.finiteVal l => negE l
          | LimitOut.notFinite _ => Expr.const 0
          | LimitOut.raised _ => Expr.const 0))), none)

/-!
Exception flow of the Christoffel calculator. The whole body of
`calculate_christoffel_symbols` runs inside one `try`; differentiation and
simplification are SymPy calls that may raise, so the body is re-expressed
over oracles `dO` (for `sympy.diff`) and `sO` (for `sympy.simplify`)
returning `Except String`. The handler formats the caught exception as
`f"Error calculating Christoffel symbols: {e}"` and returns
`(None, error_message)`.
-/

/-- Step 1 of the calculator with fallible algebra operations. -/
def dgExc (dO : String → Expr → Except String Expr)
    (sO : Expr → Except String Expr) (metric : Mat4) (coords : Fin 4 → String)
    (rho mu nu : Fin 4) : Except String Expr :=
  if metric mu nu = zeroE then Except.ok zeroE
  else if occurs (coords rho) (metric mu nu) then
    (dO (coords rho) (metric mu nu)).bind (fun d =>
      if d ≠ zeroE then sO d else Except.ok zeroE)
  else Except.ok zeroE

/-- Step 2 of the calculator with a fallible final simplification, over an
already-computed derivative array. -/
def christoffelCompExc (sO : Expr → Except String Expr) (dg : Arr3)
    (inverse_metric : Mat4) (lam mu nu : Fin 4) : Except String Expr :=
  let s := finRange4.foldl (fun acc rho =>
    if subE (addE (dg mu rho nu) (dg nu rho mu)) (dg rho mu nu) ≠ zeroE
        ∧ inverse_metric lam rho ≠ zeroE then
      addE acc (mulE (inverse_metric lam rho)
        (subE (addE (dg mu rho nu) (dg nu rho mu)) (dg rho mu nu)))
    else acc) zeroE
  if s ≠ zeroE then sO (mulE (ratHalf) s) else Except.ok zeroE

/-- The `try` block of the calculator: both loops in iteration order, the
first raised exception propagating out. -/
def christoffelBody (dO : String → Expr → Except String Expr)
    (sO : Expr → Except String Expr) (metric inverse_metric : Mat4)
    (coords : Fin 4 → String) : Except String Arr3 :=
  (triples64.mapM (fun x => dgExc dO sO metric coords x.1 x.2.1 x.2.2)).bind
    (fun dgvals =>
      (triples64.mapM (fun x =>
        christoffelCompExc sO
          (fun r m n => dgvals.getD (r.val * 16 + m.val * 4 + n.val) zeroE)
          inverse_metric x.1 x.2.1 x.2.2)).bind
        (fun cvals =>
          Except.ok (fun l m n => cvals.getD (l.val * 16 + m.val * 4 + n.val) zeroE)))

/-- Embedding of `calculate_christoffel_symbols` with its `except` handler:
a success returns `(christoffel_list, None)`; any exception `e` from the
algebra system is caught and reported as
`(None, "Error calculating Christoffel symbols: " + e)`. -/
def calculate_christoffel_symbols_exc (dO : String → Expr → Except String Expr)
    (sO : Expr → Except String Expr) (metric inverse_metric : Mat4)
    (coords : Fin 4 → String) : Option Arr3 × Option String :=
  match christoffelBody dO sO metric inverse_metric coords with
  | Except.ok c => (some c, none)
  | Except.error e => (none, some ("Error calculating Christoffel symbols: " ++ e))

/-!
Concrete inputs used by the claim instances.
-/

/-- The coordinate names `(t, r, theta, phi)` as a `Fin 4` vector. -/
def coords4 : Fin 4 → String := !["t", "r", "theta", "phi"]

/-- The coordinate names `(t, r, theta, phi)` as a list. -/
def coordsL : List String := ["t", "r", "theta", "phi"]

/-- The expression `1 - 2*M/r`. -/
def schwA : Expr :=
  Expr.sub (Expr.const 1)
    (Expr.div (Expr.mul (Expr.const 2) (Expr.var "M")) (Expr.var "r"))

/-- The Schwarzschild metric with symbolic mass `M`:
`diag(-(1 - 2M/r), 1/(1 - 2M/r), r^2, r^2*sin(theta)^2)`. -/
def schwarzschildMetric : Mat4 := fun i j =>
  if i = 0 ∧ j = 0 then Expr.neg schwA
  else if i = 1 ∧ j = 1 then Expr.div (Expr.const 1) schwA
  else if i = 2 ∧ j = 2 then Expr.pow (Expr.var "r") (Expr.const 2)
  else if i = 3 ∧ j = 3 then
    Expr.mul (Expr.pow (Expr.var "r") (Expr.const 2))
      (Expr.pow (Expr.sin (Expr.var "theta")) (Expr.const 2))
  else zeroE

/-- An asymmetric (but invertible) input matrix: the identity with an
extra `r` in the `(0, 1)` slot only. -/
def asymMetric : Mat4 := fun i j =>
  if i = 0 ∧ j = 1 then Expr.var "r"
  else if i = j then oneE
  else zeroE

/-- Integer assignment `r = 2` (all other symbols 0). -/
def envQ2 : String → ℤ := fun s => if s = "r" then 2 else 0

/-- The metric `diag(x, 1, 1, 1)` with a free parameter `x`: its
determinant is the bare symbol `x`, which vanishes exactly at `x = 0`, so
the algebra system cannot decide whether it is zero (in SymPy,
`Symbol('x').is_zero` is `None`, and `simplify(x)` returns `x` itself). -/
def paramMetric : Mat4 := fun i j =>
  if i = 0 ∧ j = 0 then Expr.var "x"
  else if i = j then oneE
  else zeroE

/-- The Minkowski metric `diag(-1, 1, 1, 1)`. -/
def minkowskiMetric : Mat4 := fun i j =>
  if i = 0 ∧ j = 0 then Expr.const (-1)
  else if i = j then oneE
  else zeroE

/-!
The scan loop of the EFE verifier: once the message has changed it is
stable, and the double loop with breaks computes the first row-major
mismatch.
-/

theorem efeRender_ne_efeBase (i j : Fin 4) (e : Expr) :
    efeRender i j e ≠ efeBase := by
  intro h
  have hl := congrArg String.length h
  rw [efeRender, String.length_append, String.length_append,
    String.length_append, String.length_append, String.length_append] at hl
  have h1 : ("EFEs NOT satisfied. Mismatch found in component (").length = 49 := by decide
  have h2 : (efeBase).length = 19 := by decide
  have h3 : (",").length = 1 := by decide
  have h4 : ("): ").length = 3 := by decide
  rw [h1, h3, h4, h2] at hl
  omega

theorem foldl_scanStay (D : Mat4) (l : List (Fin 4 × Fin 4)) (m : String)
    (h : m ≠ efeBase) : l.foldl (efeScanStep D) m = m := by
  induction l with
  | nil => rfl
  | cons p l ih =>
    rw [List.foldl_cons]
    rw [show efeScanStep D m p = m from if_pos h]
    exact ih

theorem rowStep (D : Mat4) (i : Fin 4) (m : String) :
    (if m ≠ efeBase then m else efeRowScan D i m)
      = (finRange4.map (fun j => (i, j))).foldl (efeScanStep D) m := by
  by_cases hm : m = efeBase
  · subst hm
    rw [if_neg (by simp)]
    rw [efeRowScan, List.foldl_map]
  · rw [if_pos hm, foldl_scanStay D _ m hm]

theorem efeScan_eq_pairScan (D : Mat4) :
    efeScan D = pairs16.foldl (efeScanStep D) efeBase := by
  show List.foldl (fun m i => if m ≠ efeBase then m else efeRowScan D i m) efeBase finRange4
    = pairs16.foldl (efeScanStep D) efeBase
  simp only [finRange4, List.foldl_cons, List.foldl_nil]
  rw [rowStep, rowStep, rowStep, rowStep]
  rw [show pairs16
      = ((finRange4.map (fun j => ((0 : Fin 4), j))
          ++ finRange4.map (fun j => ((1 : Fin 4), j))
          ++ finRange4.map (fun j => ((2 : Fin 4), j)))
          ++ finRange4.map (fun j => ((3 : Fin 4), j))) from rfl]
  rw [List.foldl_append, List.foldl_append, List.foldl_append]

theorem foldl_scanSpec (D : Mat4) (l : List (Fin 4 × Fin 4)) :
    l.foldl (efeScanStep D) efeBase
      = (match l.find? (fun p => decide (D p.1 p.2 ≠ zeroE)) with
        | some p => efeRender p.1 p.2 (D p.1 p.2)
        | none => efeBase) := by
  induction l with
  | nil => rfl
  | cons p l ih =>
    rw [List.foldl_cons]
    by_cases hD : D p.1 p.2 ≠ zeroE
    · rw [show efeScanStep D efeBase p = efeRender p.1 p.2 (D p.1 p.2) from by
        rw [efeScanStep, if_neg (by simp), if_pos hD]]
      rw [foldl_scanStay D l _ (efeRender_ne_efeBase _ _ _)]
      rw [List.find?_cons_of_pos _ (by simpa using hD)]
    · rw [show efeScanStep D efeBase p = efeBase from by
        rw [efeScanStep, if_neg (by simp), if_neg hD]]
      rw [ih, List.find?_cons_of_neg _ (by simpa using hD)]

theorem find?_first {α : Type} (p : α → Bool) :
    ∀ (l : List α) (a : α), l.find? p = some a →
      ∃ n, ∃ h : n < l.length, l.get ⟨n, h⟩ = a ∧ p a = true ∧
        ∀ m (hm : m < n), p (l.get ⟨m, hm.trans h⟩) = false := by
  intro l
  induction l with
  | nil => intro a h; simp [List.find?] at h
  | cons x l ih =>
    intro a h
    by_cases hx : p x = true
    · rw [List.find?_cons_of_pos _ hx] at h
      refine ⟨0, by simp, ?_, ?_, ?_⟩
      · simpa using Option.some_injective _ h
      · rw [← Option.some_injective _ h]; exact hx
      · intro m hm; omega
    · rw [List.find?_cons_of_neg _ hx] at h
      obtain ⟨n, hn, hget, hp, hearlier⟩ := ih a h
      refine ⟨n + 1, by simp; omega, by simpa using hget, hp, ?_⟩
      intro m hm
      match m with
      | 0 => simpa using hx
      | Nat.succ m' =>
        have := hearlier m' (by omega)
        simpa using this

theorem pairs16_mem (i j : Fin 4) : (i, j) ∈ pairs16 := by
  fin_cases i <;> fin_cases j <;> decide

theorem pairs16_get_index (n : ℕ) (hn : n < pairs16.length) :
    (pairs16.get ⟨n, hn⟩).1.val * 4 + (pairs16.get ⟨n, hn⟩).2.val = n := by
  have h16 : n < 16 := hn
  interval_cases n <;> rfl

theorem addE_zero_right (a : Expr) : addE a (Expr.const 0) = a := by
  unfold addE
  cases a <;> simp [zeroE]

/-!
Helper facts for membership and key injectivity in the tensor formatter.
-/

theorem triples64_mem : ∀ i j k : Fin 4, (i, j, k) ∈ triples64 := by decide

theorem quads256_mem : ∀ i j k l : Fin 4, (i, j, k, l) ∈ quads256 := by decide

/-- Digit value of a character. -/
def digitVal (c : Char) : ℕ := c.toNat - 48

/-- Decoding of an index key back to its digit values (ignoring the
underscore separator); a left inverse of the key builders. -/
def keyDecode (s : String) : List ℕ :=
  s.data.filterMap (fun c => if c = '_' then none else some (digitVal c))

theorem keyDecode_key3 : ∀ a b c : Fin 4,
    keyDecode (key3 a b c) = [a.val, b.val, c.val] := by decide

theorem keyDecode_key4 : ∀ a b c d : Fin 4,
    keyDecode (key4 a b c d) = [a.val, b.val, c.val, d.val] := by decide

theorem key3_inj (a b c a' b' c' : Fin 4) (h : key3 a b c = key3 a' b' c') :
    a = a' ∧ b = b' ∧ c = c' := by
  have hd := congrArg keyDecode h
  rw [keyDecode_key3 a b c, keyDecode_key3 a' b' c'] at hd
  simp only [List.cons.injEq, and_true] at hd
  exact ⟨Fin.ext hd.1, Fin.ext hd.2.1, Fin.ext hd.2.2⟩

theorem key4_inj (a b c d a' b' c' d' : Fin 4) (h : key4 a b c d = key4 a' b' c' d') :
    a = a' ∧ b = b' ∧ c = c' ∧ d = d' := by
  have hd := congrArg keyDecode h
  rw [keyDecode_key4 a b c d, keyDecode_key4 a' b' c' d'] at hd
  simp only [List.cons.injEq, and_true] at hd
  exact ⟨Fin.ext hd.1, Fin.ext hd.2.1, Fin.ext hd.2.2.1, Fin.ext hd.2.2.2⟩

/-!
Concrete inputs for the remaining claim instances.
-/

/-- A matrix whose only simplified EFE residual sits at `(1, 2)`. -/
def mismatchG : Mat4 := fun i j => if i = 1 ∧ j = 2 then Expr.var "x" else zeroE

/-- A differentiation oracle raising `"boom"` exactly on the input
expression `r` differentiated along `r`. -/
def boomDiff : String → Expr → Except String Expr :=
  fun x e =>
    if x = "r" ∧ e = Expr.var "r" then Except.error "boom" else Except.ok (diffE x e)

/-- A simplification oracle that never raises. -/
def okSimp : Expr → Except String Expr := fun e => Except.ok (simplifyE e)

/-- A metric whose only `r`-dependent entry is at indices `(0, 0)`. -/
def boomMetricA : Mat4 := fun i j => if i = 0 ∧ j = 0 then Expr.var "r" else oneE

/-- A metric whose only `r`-dependent entry is at indices `(3, 3)`. -/
def boomMetricB : Mat4 := fun i j => if i = 3 ∧ j = 3 then Expr.var "r" else oneE

/-- The all-ones matrix (used as an arbitrary inverse-metric argument). -/
def onesMat : Mat4 := fun _ _ => oneE

/-- The metric `diag(1, 2, 1, 1)` in coordinates `(t, r, theta, phi)`:
its `g_rr` is the constant 2, so the embedding integrand is `sqrt(1)`. -/
def flammMetric2 : Mat4 := fun i j =>
  if i = j then (if i = 1 then Expr.const 2 else oneE) else zeroE

/-- An integration oracle: the antiderivative of `sqrt(1)` with respect to
`r` is `r`; everything else is an unevaluated integral. -/
def integR : Expr → Option Expr :=
  fun e => if e = Expr.sqrt (Expr.const 1) then some (Expr.var "r") else none

/-- A limit oracle for which the limit at infinity is never finite
(`sympy.limit(r, r, oo) = oo` and `oo.is_finite` is falsy). -/
def limitInf : Expr → LimitOut := fun _ => LimitOut.notFinite (Expr.var "oo")

/-!
Claim theorems.
-/

/-- C1: the EFE verification endpoint, given the Schwarzschild metric in
`(t, r, theta, phi)` with symbolic mass `M`, the vacuum stress-energy
preset and any coupling constant, never completes the pipeline: the
christoffel step returns a `(list, error)` tuple which the Riemann step's
`isinstance` guard rejects, so the endpoint answers HTTP 400 instead of
`verified = true`. -/
theorem c1_verify_efe_schwarzschild_vacuum (kappa : Expr) :
    verify_efe schwarzschildMetric coords4 StressInput.vacuum kappa
      = Except.error ⟨400,
          "Christoffel symbols must be a 3-rank SymPy Array with shape (4, 4, 4)."⟩ := rfl

/-- C2 counterexample: on the metric `diag(x, 1, 1, 1)` the determinant
is the bare parameter `x` -- zero under the assignment `x = 0` and
non-zero under `x = 1` -- so the algebra system cannot decide whether the
determinant is zero (`simplify(x)` is `x` in SymPy just as here, and
SymPy's own verdict `Symbol('x').is_zero` is `None`, its "cannot
decide"). Instead of raising a distinct 'determinant indeterminate'
condition, `calculate_inverse_metric` silently proceeds to invert and
returns a matrix whose `(0, 0)` entry divides by `x`, invalid exactly at
the undecided singular point. -/
theorem c2_singularity_counterexample :
    det4E paramMetric = Expr.var "x"
    ∧ simplifyE (det4E paramMetric) ≠ zeroE
    ∧ evalR (det4E paramMetric) (fun _ => 0) = 0
    ∧ evalR (det4E paramMetric) (fun _ => 1) = 1
    ∧ calculate_inverse_metric paramMetric = Except.ok (inv4E paramMetric)
    ∧ inv4E paramMetric 0 0 = Expr.div oneE (Expr.var "x") :=
  ⟨rfl, by decide,
    by rw [show det4E paramMetric = Expr.var "x" from rfl]; simp [evalR],
    by rw [show det4E paramMetric = Expr.var "x" from rfl]; simp [evalR],
    rfl, rfl⟩

/-- C2 amended: `calculate_inverse_metric` raises a generic
`ValueError` with the singularity message exactly when the simplified
determinant is the literal zero; whenever the simplified determinant is
not the literal zero -- including undecided, mathematically-zero
determinants -- it proceeds to invert, with no distinct indeterminate
condition. -/
theorem c2_singularity_amended (metric : Mat4) :
    (calculate_inverse_metric metric
        = Except.error (PyErr.valueError
            "Metric is singular (determinant is zero), cannot compute inverse.")
      ↔ simplifyE (det4E metric) = zeroE)
    ∧ (simplifyE (det4E metric) ≠ zeroE →
        calculate_inverse_metric metric = Except.ok (inv4E metric)) := by
  unfold calculate_inverse_metric
  by_cases h : simplifyE (det4E metric) = zeroE
  · rw [if_pos h]
    exact ⟨iff_of_true rfl h, fun hne => absurd h hne⟩
  · rw [if_neg h]
    exact ⟨iff_of_false (by simp) h, fun _ => rfl⟩

/-- C2 amended, witness at the Minkowski metric. -/
theorem c2_singularity_amended_witness :
    simplifyE (det4E minkowskiMetric) ≠ zeroE
    ∧ calculate_inverse_metric minkowskiMetric = Except.ok (inv4E minkowskiMetric) :=
  ⟨by decide, (c2_singularity_amended minkowskiMetric).2 (by decide)⟩

/-- C3 counterexample: on the asymmetric input matrix `asymMetric`
(identity plus an `r` at `(0, 1)`), fed together with its computed
inverse, the Christoffel output has `Gamma^0_{01} ≠ Gamma^0_{10}`
(their values at `r = 2` differ), refuting lower-index symmetry for
arbitrary input matrices. -/
theorem c3_symmetry_counterexample :
    evalR (christoffelComp asymMetric (inv4E asymMetric) coords4 0 0 1)
        (fun s => ((envQ2 s : ℤ) : ℝ))
      ≠ evalR (christoffelComp asymMetric (inv4E asymMetric) coords4 0 1 0)
        (fun s => ((envQ2 s : ℤ) : ℝ))
    ∧ calculate_inverse_metric asymMetric = Except.ok (inv4E asymMetric) := by
  constructor
  · have h1 := (evalR_of_evalQZ envQ2
      (christoffelComp asymMetric (inv4E asymMetric) coords4 0 0 1) 2 2 (by decide)).2
    have h2 := (evalR_of_evalQZ envQ2
      (christoffelComp asymMetric (inv4E asymMetric) coords4 0 1 0) 0 1 (by decide)).2
    rw [h1, h2]
    norm_num
  · rfl

/-- C3 amended: for every symmetric input matrix (and any inverse-metric
argument and coordinates), the Christoffel calculator's output satisfies
the lower-index symmetry `Gamma^lam_{mu nu} = Gamma^lam_{nu mu}`. -/
theorem c3_symmetry_amended (metric inverse_metric : Mat4) (coords : Fin 4 → String)
    (hsym : ∀ a b : Fin 4, metric a b = metric b a) (lam mu nu : Fin 4)
    (env : String → ℝ) :
    evalR (christoffelComp metric inverse_metric coords lam mu nu) env
      = evalR (christoffelComp metric inverse_metric coords lam nu mu) env := by
  rw [evalR_christoffelComp, evalR_christoffelComp]
  congr 1
  refine Finset.sum_congr rfl (fun rho _ => ?_)
  rw [hsym nu mu]
  ring

/-- C3 amended, witness at the Minkowski metric. -/
theorem c3_symmetry_amended_witness :
    (∀ a b : Fin 4, minkowskiMetric a b = minkowskiMetric b a)
    ∧ evalR (christoffelComp minkowskiMetric (inv4E minkowskiMetric) coords4 0 0 1)
        (fun _ => 0)
      = evalR (christoffelComp minkowskiMetric (inv4E minkowskiMetric) coords4 0 1 0)
        (fun _ => 0) :=
  ⟨by decide, c3_symmetry_amended minkowskiMetric (inv4E minkowskiMetric) coords4
      (by decide) 0 0 1 (fun _ => 0)⟩

/-- C4: for every rank-3 (4,4,4) Christoffel array and any coordinates,
the assembled Riemann component is antisymmetric in its last two indices
(pointwise in every assignment), and components with equal last indices
are the literal zero. -/
theorem c4_riemann_antisymmetry (ch : Arr3) (coords : Fin 4 → String)
    (rho sigma mu nu : Fin 4) (env : String → ℝ) :
    evalR (riemannComp ch coords rho sigma mu nu) env
      = -(evalR (riemannComp ch coords rho sigma nu mu) env)
    ∧ (mu = nu → riemannComp ch coords rho sigma mu nu = zeroE) := by
  refine ⟨evalR_riemannComp_antisymm ch coords rho sigma mu nu env, fun h => ?_⟩
  subst h
  exact riemannComp_diag ch coords rho sigma mu

/-- C4 witness at a constant Christoffel array with equal last indices. -/
theorem c4_riemann_antisymmetry_witness :
    (2 : Fin 4) = 2
    ∧ evalR (riemannComp (fun _ _ _ => Expr.var "x") coords4 0 0 2 2) (fun _ => 0)
        = -(evalR (riemannComp (fun _ _ _ => Expr.var "x") coords4 0 0 2 2) (fun _ => 0))
    ∧ riemannComp (fun _ _ _ => Expr.var "x") coords4 0 0 2 2 = zeroE :=
  ⟨rfl,
    (c4_riemann_antisymmetry (fun _ _ _ => Expr.var "x") coords4 0 0 2 2 (fun _ => 0)).1,
    (c4_riemann_antisymmetry (fun _ _ _ => Expr.var "x") coords4 0 0 2 2 (fun _ => 0)).2 rfl⟩

/-- C5: every component of the Christoffel calculator's output
mathematically equals
`(1/2) * sum_rho g^{lam rho} * (d_mu g_{rho nu} + d_nu g_{rho mu} - d_rho g_{mu nu})`;
in particular the literal-zero and free-symbol pre-filters on the
precomputed derivatives never omit a non-zero derivative term. -/
theorem c5_christoffel_formula (metric inverse_metric : Mat4)
    (coords : Fin 4 → String) (lam mu nu : Fin 4) (env : String → ℝ) :
    evalR (christoffelComp metric inverse_metric coords lam mu nu) env
      = (1 / 2) * ∑ rho : Fin 4, evalR (inverse_metric lam rho) env
          * (evalR (diffE (coords mu) (metric rho nu)) env
            + evalR (diffE (coords nu) (metric rho mu)) env
            - evalR (diffE (coords rho) (metric mu nu)) env) :=
  evalR_christoffelComp metric inverse_metric coords lam mu nu env

/-- C6: in the comparison stage of the EFE verifier, the verified flag is
true exactly when all 16 simplified components of `D = G - kappa*T` are
the literal zero, and on failure the message reports the first non-zero
component in row-major scan order together with its residual. -/
theorem c6_efe_comparison (G T : Mat4) (kappa : Expr) :
    ((verify_efe_compare G T kappa).1 = true ↔
      ∀ i j : Fin 4, efeDiff G T kappa i j = zeroE)
    ∧ ((verify_efe_compare G T kappa).1 = false →
        ∃ i j : Fin 4, efeDiff G T kappa i j ≠ zeroE
          ∧ (verify_efe_compare G T kappa).2 = efeRender i j (efeDiff G T kappa i j)
          ∧ ∀ i' j' : Fin 4, i'.val * 4 + j'.val < i.val * 4 + j.val →
              efeDiff G T kappa i' j' = zeroE) := by
  have hall : efeVerified (efeDiff G T kappa) = true ↔
      ∀ i j : Fin 4, efeDiff G T kappa i j = zeroE := by
    rw [efeVerified, List.all_eq_true]
    constructor
    · intro h i j
      simpa using h (i, j) (pairs16_mem i j)
    · intro h p _
      simpa using h p.1 p.2
  cases hv : efeVerified (efeDiff G T kappa) with
  | true =>
    constructor
    · refine iff_of_true ?_ (hall.mp hv)
      simp [verify_efe_compare, hv]
    · intro hfalse
      exfalso
      rw [show (verify_efe_compare G T kappa).1 = true from by
        simp [verify_efe_compare, hv]] at hfalse
      cases hfalse
  | false =>
    have h1 : (verify_efe_compare G T kappa).1 = false := by
      simp [verify_efe_compare, hv]
    have h2 : (verify_efe_compare G T kappa).2 = efeScan (efeDiff G T kappa) := by
      simp [verify_efe_compare, hv]
    constructor
    · refine iff_of_false (by rw [h1]; simp) (fun hAll => ?_)
      rw [hall.mpr hAll] at hv
      cases hv
    · intro _
      have hne : pairs16.find? (fun p => decide (efeDiff G T kappa p.1 p.2 ≠ zeroE))
          ≠ none := by
        intro hnone
        have hzero : efeVerified (efeDiff G T kappa) = true := by
          rw [efeVerified, List.all_eq_true]
          intro p hp
          have := List.find?_eq_none.mp hnone p hp
          simpa using not_not.mp (by simpa using this)
        rw [hzero] at hv
        cases hv
      obtain ⟨p0, hp0⟩ := Option.ne_none_iff_exists'.mp hne
      obtain ⟨nn, hnlt, hget, hpp, hearly⟩ := find?_first _ pairs16 p0 hp0
      refine ⟨p0.1, p0.2, by simpa using hpp, ?_, ?_⟩
      · rw [h2, efeScan_eq_pairScan, foldl_scanSpec, hp0]
      · intro i' j' hlt
        have hidx : p0.1.val * 4 + p0.2.val = nn := by
          have h := pairs16_get_index nn hnlt
          rw [hget] at h
          exact h
        have hm : i'.val * 4 + j'.val < pairs16.length := by
          have hi := i'.isLt
          have hj := j'.isLt
          rw [show pairs16.length = 16 from rfl]
          omega
        have hmn : i'.val * 4 + j'.val < nn := by omega
        have hgm := pairs16_get_index (i'.val * 4 + j'.val) hm
        have hz := hearly (i'.val * 4 + j'.val) hmn
        have hcomp : (pairs16.get ⟨i'.val * 4 + j'.val, hm⟩).1 = i'
            ∧ (pairs16.get ⟨i'.val * 4 + j'.val, hm⟩).2 = j' := by
          have hb2 := (pairs16.get ⟨i'.val * 4 + j'.val, hm⟩).2.isLt
          have hb3 := j'.isLt
          constructor
          · apply Fin.ext
            omega
          · apply Fin.ext
            omega
        rw [show pairs16.get ⟨i'.val * 4 + j'.val, hmn.trans hnlt⟩
            = pairs16.get ⟨i'.val * 4 + j'.val, hm⟩ from rfl] at hz
        rw [hcomp.1, hcomp.2] at hz
        simpa using not_not.mp (by simpa using hz)

/-- C6 witness: a difference tensor whose only residual sits at `(1, 2)`. -/
theorem c6_efe_comparison_witness :
    (verify_efe_compare mismatchG create_vacuum_tensor oneE).1 = false
    ∧ ∃ i j : Fin 4, efeDiff mismatchG create_vacuum_tensor oneE i j ≠ zeroE
        ∧ (verify_efe_compare mismatchG create_vacuum_tensor oneE).2
            = efeRender i j (efeDiff mismatchG create_vacuum_tensor oneE i j)
        ∧ ∀ i' j' : Fin 4, i'.val * 4 + j'.val < i.val * 4 + j.val →
            efeDiff mismatchG create_vacuum_tensor oneE i' j' = zeroE :=
  ⟨by decide, (c6_efe_comparison mismatchG create_vacuum_tensor oneE).2 (by decide)⟩

/-- C7 counterexample: two runs of the Christoffel calculator in which the
differentiation oracle raises the same exception at different
`(lam, mu, nu)` positions -- the grid position of the only `r`-dependent
component differs between `boomMetricA` and `boomMetricB` -- produce
identical failure reports, so the report carries no index context. -/
theorem c7_exception_counterexample :
    calculate_christoffel_symbols_exc boomDiff okSimp boomMetricA onesMat coords4
      = (none, some "Error calculating Christoffel symbols: boom")
    ∧ calculate_christoffel_symbols_exc boomDiff okSimp boomMetricB onesMat coords4
      = (none, some "Error calculating Christoffel symbols: boom") :=
  ⟨rfl, rfl⟩

/-- C7 amended: every exception raised by the algebra system inside the
Christoffel calculator is caught -- the call always returns either
`(christoffel, None)` or `(None, message)`, never crashing the pipeline --
and the failure report is the exception text behind a fixed prefix text,
without the failing `(lam, mu, nu)` index context. -/
theorem c7_exception_amended (dO : String → Expr → Except String Expr)
    (sO : Expr → Except String Expr) (metric inverse_metric : Mat4)
    (coords : Fin 4 → String) :
    (∃ c, calculate_christoffel_symbols_exc dO sO metric inverse_metric coords
        = (some c, none))
    ∨ (∃ e, calculate_christoffel_symbols_exc dO sO metric inverse_metric coords
        = (none, some ("Error calculating Christoffel symbols: " ++ e))) := by
  cases h : christoffelBody dO sO metric inverse_metric coords with
  | ok c =>
    left
    exact ⟨c, by rw [calculate_christoffel_symbols_exc, h]⟩
  | error e =>
    right
    exact ⟨e, by rw [calculate_christoffel_symbols_exc, h]⟩

/-- C8 counterexample: with `g_rr = 2` (integrand `sqrt(1)`, antiderivative
`r`) and a limit at infinity that is not finite, the embedding solver
returns the successful result `(z(r) = r, None)`: the degraded
integration-constant fallback is not flagged in the returned result, only
printed to the server log. -/
theorem c8_degraded_counterexample :
    calculate_flamms_paraboloid flammMetric2 coordsL integR limitInf
      = (some (Expr.var "r"), none) := rfl

/-- C8 amended: whenever the integrand integrates in closed form and the
limit of the antiderivative at infinity is not finite or raises, the
integration constant defaults to zero and the call returns the successful
pair `(z(r), None)` -- with no flag in the returned message (the warning
goes only to the printed log). -/
theorem c8_degraded_amended (metric : Mat4) (coords : List String)
    (integ : Expr → Option Expr) (limitO : Expr → LimitOut) (z l : Expr)
    (emsg : String) (h4 : coords.length = 4) (hr : "r" ∈ coords)
    (ht : "theta" ∈ coords) (hdeps : flammDepsErr metric coords = false)
    (hint : integ (simplifyE (Expr.sqrt (subE (flammGrr metric coords) oneE)))
      = some z)
    (hlim : limitO z = LimitOut.notFinite l ∨ limitO z = LimitOut.raised emsg) :
    calculate_flamms_paraboloid metric coords integ limitO
      = (some (simplifyE z), none) := by
  unfold calculate_flamms_paraboloid
  rw [if_neg (by simp [h4]), if_neg (by simp [hr, ht]), if_neg (by simp [hdeps])]
  simp only [hint]
  rcases hlim with h | h <;> simp only [h] <;> rw [addE_zero_right]

/-- C8 amended, witness at the concrete degraded run. -/
theorem c8_degraded_amended_witness :
    coordsL.length = 4 ∧ "r" ∈ coordsL ∧ "theta" ∈ coordsL
    ∧ flammDepsErr flammMetric2 coordsL = false
    ∧ integR (simplifyE (Expr.sqrt (subE (flammGrr flammMetric2 coordsL) oneE)))
        = some (Expr.var "r")
    ∧ limitInf (Expr.var "r") = LimitOut.notFinite (Expr.var "oo")
    ∧ calculate_flamms_paraboloid flammMetric2 coordsL integR limitInf
        = (some (simplifyE (Expr.var "r")), none) :=
  ⟨rfl, by decide, by decide, by decide, rfl, rfl,
    c8_degraded_amended flammMetric2 coordsL integR limitInf (Expr.var "r")
      (Expr.var "oo") "" rfl (by decide) (by decide) (by decide) rfl (Or.inl rfl)⟩

/-- C9: the rank-2 formatter emits all 16 two-digit keys, and the rank-3
and rank-4 formatters emit a key exactly when the simplified component is
not the literal zero. -/
theorem c9_format_tensor_output (t2 : Mat4) (t3 : Arr3) (t4 : Arr4) :
    (∀ i j : Fin 4, key2 i j ∈ (format_rank2 t2).map Prod.fst)
    ∧ (∀ i j k : Fin 4, key3 i j k ∈ (format_rank3 t3).map Prod.fst ↔
        simplifyE (t3 i j k) ≠ zeroE)
    ∧ (∀ i j k l : Fin 4, key4 i j k l ∈ (format_rank4 t4).map Prod.fst ↔
        simplifyE (t4 i j k l) ≠ zeroE) := by
  refine ⟨?_, ?_, ?_⟩
  · intro i j
    rw [format_rank2, List.map_map]
    exact List.mem_map.mpr ⟨(i, j), pairs16_mem i j, rfl⟩
  · intro i j k
    rw [format_rank3, List.map_filterMap]
    constructor
    · intro hmem
      obtain ⟨x, _, hfx⟩ := List.mem_filterMap.mp hmem
      by_cases hc : simplifyE (t3 x.1 x.2.1 x.2.2) ≠ zeroE
      · rw [if_pos hc] at hfx
        simp only [Option.map_some', Option.some.injEq] at hfx
        obtain ⟨hi, hj, hk⟩ := key3_inj x.1 x.2.1 x.2.2 i j k hfx
        rw [← hi, ← hj, ← hk]
        exact hc
      · rw [if_neg hc] at hfx
        cases hfx
    · intro hc
      refine List.mem_filterMap.mpr ⟨(i, j, k), triples64_mem i j k, ?_⟩
      rw [if_pos hc]
      rfl
  · intro i j k l
    rw [format_rank4, List.map_filterMap]
    constructor
    · intro hmem
      obtain ⟨x, _, hfx⟩ := List.mem_filterMap.mp hmem
      by_cases hc : simplifyE (t4 x.1 x.2.1 x.2.2.1 x.2.2.2) ≠ zeroE
      · rw [if_pos hc] at hfx
        simp only [Option.map_some', Option.some.injEq] at hfx
        obtain ⟨hi, hj, hk, hl⟩ := key4_inj x.1 x.2.1 x.2.2.1 x.2.2.2 i j k l hfx
        rw [← hi, ← hj, ← hk, ← hl]
        exact hc
      · rw [if_neg hc] at hfx
        cases hfx
    · intro hc
      refine List.mem_filterMap.mpr ⟨(i, j, k, l), quads256_mem i j k l, ?_⟩
      rw [if_pos hc]
      rfl

/-- C9 witness at the all-ones rank-2/3/4 tensors and index (0,1),
(0,1,2), (0,1,2,3). -/
theorem c9_format_tensor_output_witness :
    key2 0 1 ∈ (format_rank2 onesMat).map Prod.fst
    ∧ (key3 0 1 2 ∈ (format_rank3 (fun _ _ _ => oneE)).map Prod.fst ↔
        simplifyE ((fun _ _ _ => oneE) (0 : Fin 4) (1 : Fin 4) (2 : Fin 4)) ≠ zeroE)
    ∧ (key4 0 1 2 3 ∈ (format_rank4 (fun _ _ _ _ => oneE)).map Prod.fst ↔
        simplifyE ((fun _ _ _ _ => oneE) (0 : Fin 4) (1 : Fin 4) (2 : Fin 4) (3 : Fin 4))
          ≠ zeroE) :=
  ⟨(c9_format_tensor_output onesMat (fun _ _ _ => oneE) (fun _ _ _ _ => oneE)).1 0 1,
    (c9_format_tensor_output onesMat (fun _ _ _ => oneE) (fun _ _ _ _ => oneE)).2.1 0 1 2,
    (c9_format_tensor_output onesMat (fun _ _ _ => oneE) (fun _ _ _ _ => oneE)).2.2 0 1 2 3⟩

/-- C10: for every 4x4 metric and every list of 4 coordinate names not
containing the literal names `r` and `theta`, the embedding solver returns
the error pair `(None, "Coordinates must include 'r' and 'theta'.")`
without raising; applicability is decided by the literal coordinate names
(list membership), not by positions. -/
theorem c10_flamm_coordinate_names (metric : Mat4) (coords : List String)
    (integ : Expr → Option Expr) (limitO : Expr → LimitOut)
    (h4 : coords.length = 4) (hr : "r" ∉ coords) (ht : "theta" ∉ coords) :
    calculate_flamms_paraboloid metric coords integ limitO
      = (none, some "Coordinates must include 'r' and 'theta'.") := by
  unfold calculate_flamms_paraboloid
  rw [if_neg (by simp [h4]), if_pos (fun hc => hr hc.1)]

/-- C10 witness at coordinates `(t, x, y, z)`. -/
theorem c10_flamm_coordinate_names_witness :
    (["t", "x", "y", "z"] : List String).length = 4
    ∧ "r" ∉ (["t", "x", "y", "z"] : List String)
    ∧ "theta" ∉ (["t", "x", "y", "z"] : List String)
    ∧ calculate_flamms_paraboloid onesMat ["t", "x", "y", "z"]
        (fun _ => none) (fun _ => LimitOut.raised "")
      = (none, some "Coordinates must include 'r' and 'theta'.") :=
  ⟨rfl, by decide, by decide,
    c10_flamm_coordinate_names onesMat ["t", "x", "y", "z"]
      (fun _ => none) (fun _ => LimitOut.raised "") rfl (by decide) (by decide)⟩
